import Mathlib

/-!
Verification of the cashews key-templating engine and its two call-wrapping
policies (rate limiter, performance-degradation breaker), as implemented in
`src/cashews/formatter.py`, `src/cashews/decorators/rate.py` and
`src/cashews/decorators/perf.py`.

Templates are embedded at token level (a sequence of literal and field
tokens), following the design note of the spec that the forward formatter and
the reverse pattern compiler are two renderers over one token sequence.
Python strings are embedded as `List Char`; Python values that flow through
the formatter are embedded as the inductive `Value`; machine floats (call
durations) are embedded as `ℚ`.  The compiled recognition regex
`(.*[:])?<literals and (?P<name>[^:]*) groups>$` is embedded structurally:
`patMatchAll` returns every capture assignment of every full match of that
pattern shape (so statements quantify over whichever match the engine picks).
The embedding is faithful for literals free of regex metacharacters and for
keys without newline characters.
-/

namespace Cashews

/-- Python values that flow through the formatter: `None`, `bool`, `str`, `int`. -/
inductive Value where
  | none
  | bool (b : Bool)
  | str (s : String)
  | int (i : Int)
deriving DecidableEq, Repr

/-- Python `str(value)`: `None → "None"`, `True → "True"`, `False → "False"`,
strings unchanged, integers in decimal. -/
def pyStr : Value → List Char
  | .none => "None".data
  | .bool b => (cond b "True" "False").data
  | .str s => s.data
  | .int i => (toString i).data

/-- `format_value` (formatter.py line 54): `None → ""`, booleans to their
lowercase literal, all other values unchanged. -/
def format_value : Value → Value
  | .none => .str ""
  | .bool b => .str (cond b "true" "false")
  | .str s => .str s
  | .int i => .int i

/-- `format(format_value(value))`: the default field rendering used by
`_ReplaceFormatter.format_field` (formatter.py line 20). -/
def fmtRender (v : Value) : List Char := pyStr (format_value v)

/-- Association-list lookup, first binding wins (embeds a Python dict snapshot). -/
def alookup (a : String) : List (String × α) → Option α
  | [] => Option.none
  | (k, v) :: r => if k = a then some v else alookup a r

/-- Association-list update, overwriting an existing binding. -/
def aset (k : String) (v : α) : List (String × α) → List (String × α)
  | [] => [(k, v)]
  | (k', v') :: r => if k' = k then (k, v) :: r else (k', v') :: aset k v r

/-- A registered field function: called with the resolved value and the parsed
string arguments of the format specifier (formatter.py line 42). -/
abbrev Fn := Value → List String → Value

/-- Split a character list at the first occurrence of `c`
(Python `s.split(c, 1)` when `c` occurs). -/
def splitFirst (c : Char) : List Char → Option (List Char × List Char)
  | [] => Option.none
  | x :: xs =>
      if x = c then some ([], xs)
      else (splitFirst c xs).map (fun p => (x :: p.1, p.2))

/-- Python `str.split(c)` (full split; the empty string yields `[""]`). -/
def splitAll (c : Char) : List Char → List (List Char)
  | [] => [[]]
  | x :: xs =>
      if x = c then [] :: splitAll c xs
      else
        match splitAll c xs with
        | [] => [[x]]
        | g :: gs => (x :: g) :: gs

/-- `_FuncFormatter.parse_format_spec` (formatter.py lines 46-51): no `(` (or
empty spec) leaves the spec as the alias with no arguments; otherwise split at
the first `(`, strip every `)` from the remainder and split it at `,`. -/
def parse_format_spec (spec : String) : String × List String :=
  if spec = "" ∨ '(' ∉ spec.data then (spec, [])
  else
    match splitFirst '(' spec.data with
    | some (pre, post) =>
        (String.mk pre, (splitAll ',' (post.filter (fun c => c ≠ ')'))).map String.mk)
    | Option.none => (spec, [])

/-- A template token: a literal span or a field `{name:format_spec}`
(formatter.py templates, seen through Python's `string.Formatter` parse). -/
inductive TTok where
  | lit (l : List Char)
  | field (name : String) (spec : String)
deriving DecidableEq, Repr

/-- The raw template string a token sequence denotes (fields written back as
`{name}` or `{name:spec}`). -/
def tmplSource : List TTok → List Char
  | [] => []
  | .lit l :: ts => l ++ tmplSource ts
  | .field n spec :: ts =>
      Char.ofNat 123 ::
        (n.data ++ (if spec = "" then [] else ':' :: spec.data) ++
          Char.ofNat 125 :: tmplSource ts)

/-- `get_field` resolution of `_ReplaceFormatter` (formatter.py line 14):
the bound value when present, the default policy's value otherwise. -/
def getFieldVal (dflt : String → Value) (vals : List (String × Value)) (n : String) : Value :=
  match alookup n vals with
  | some v => v
  | Option.none => dflt n

/-- `_FuncFormatter.format_field` (formatter.py lines 39-44): parse the format
spec; if the alias is registered, render `str(fn(value, *args))`; otherwise the
spec is handed to `_ReplaceFormatter.format_field`, which ignores it. -/
def funcFormatField (reg : List (String × Fn)) (v : Value) (spec : String) : List Char :=
  match alookup (parse_format_spec spec).1 reg with
  | some fn => fmtRender (.str (String.mk (pyStr (fn v (parse_format_spec spec).2))))
  | Option.none => fmtRender v

/-- `_FuncFormatter.format` over a token sequence (default formatter path). -/
def funcFormat (reg : List (String × Fn)) (dflt : String → Value)
    (vals : List (String × Value)) : List TTok → List Char
  | [] => []
  | .lit l :: ts => l ++ funcFormat reg dflt vals ts
  | .field n spec :: ts =>
      funcFormatField reg (getFieldVal dflt vals n) spec ++ funcFormat reg dflt vals ts

/-- `_ReplaceFormatter.format` over a token sequence: fields render their
resolved (or defaulted) value, the format spec is ignored (formatter.py
lines 9-21). -/
def replaceFormat (dflt : String → Value) (vals : List (String × Value)) :
    List TTok → List Char
  | [] => []
  | .lit l :: ts => l ++ replaceFormat dflt vals ts
  | .field n _ :: ts => fmtRender (getFieldVal dflt vals n) ++ replaceFormat dflt vals ts

/-- `template_to_pattern(template)` with the default `_ReplaceFormatter()` and
no values (formatter.py line 80): every field renders as `*`. -/
def template_to_pattern (ts : List TTok) : List Char :=
  replaceFormat (fun _ => .str "*") [] ts

/-- Python `field_name.replace('.', '_')` (formatter.py line 85). -/
def repDot (s : String) : String :=
  String.mk (s.data.map fun c => if c = '.' then '_' else c)

/-- A token of the compiled recognition regex: verbatim literal text, or a
named capture group `(?P<name>[^:]*)` produced by `_re_default`
(formatter.py lines 84-88). -/
inductive PTok where
  | lit (l : List Char)
  | grp (name : String)
deriving DecidableEq, Repr

/-- Compile one template token to its pattern token (the `_re_formatter`
rendering: every field, whatever its spec, becomes a capture group named by
the field identifier with dots mapped to underscores). -/
def compileTok : TTok → PTok
  | .lit l => .lit l
  | .field n _ => .grp (repDot n)

/-- Compile a template to its pattern body (register_template, formatter.py
line 93, before the `(.*[:])?` wrapper and the trailing anchor). -/
def compileTmpl (ts : List TTok) : List PTok := ts.map compileTok

/-- A capture assignment: the captured text of each group, in group order. -/
abbrev Caps := List (String × List Char)

/-- All full matches of a pattern body against a string: literals are matched
verbatim, each capture group takes any colon-free span, and the whole string
must be consumed (the compiled regex is used with `fullmatch`). -/
def tokMatchAll : List PTok → List Char → List Caps
  | [], s => if s = [] then [[]] else []
  | .lit l :: ts, s =>
      if l.isPrefixOf s then tokMatchAll ts (s.drop l.length) else []
  | .grp n :: ts, s =>
      (List.range (s.length + 1)).flatMap fun i =>
        if ':' ∈ s.take i then []
        else (tokMatchAll ts (s.drop i)).map fun c => (n, s.take i) :: c

/-- All full matches of the complete compiled pattern `(.*[:])?<body>$`
(formatter.py line 93): either the body matches the whole key, or an
arbitrary prefix ending in `:` is skipped and the body matches the rest. -/
def patMatchAll (ts : List PTok) (s : List Char) : List Caps :=
  tokMatchAll ts s ++
    (List.range s.length).flatMap fun i =>
      if s.getD i ' ' = ':' then tokMatchAll ts (s.drop (i + 1)) else []

/-- The identity under which templates are registered:
`(func.__module__ or "", func.__name__)` (formatter.py line 95). -/
abbrev FuncId := String × String

/-- The template registry, flattened to one `(function identity, template)`
entry per registered pair, in registration order. -/
abbrev Registry := List (FuncId × List TTok)

/-- `register_template` (formatter.py lines 92-95): set semantics, re-adding
an identical `(function, template)` pair is a no-op. -/
def register_template (fid : FuncId) (t : List TTok) (reg : Registry) : Registry :=
  if (fid, t) ∈ reg then reg else reg ++ [(fid, t)]

/-- `get_template_and_func_for` (formatter.py lines 102-107): scan the
registry; on the first key whose compiled pattern fully matches, return the
template rendered through `template_to_pattern` (fields wildcarded to `*`)
together with the owning function's identity. -/
def get_template_and_func_for (reg : Registry) (key : List Char) :
    Option (List Char × FuncId) :=
  match reg with
  | [] => Option.none
  | (f, t) :: rest =>
      if (patMatchAll (compileTmpl t) key).isEmpty then
        get_template_and_func_for rest key
      else some (template_to_pattern t, f)

/-- `get_template_for_key` (formatter.py lines 110-116): scan the registry;
on the first template whose compiled pattern fully matches, return the
template and a capture assignment (the engine's `groupdict()` is one element
of the returned list of all full-match assignments). -/
def get_template_for_key (reg : Registry) (key : List Char) :
    Option (List TTok × List Caps) :=
  match reg with
  | [] => Option.none
  | (_, t) :: rest =>
      if (patMatchAll (compileTmpl t) key).isEmpty then
        get_template_for_key rest key
      else some (t, patMatchAll (compileTmpl t) key)

/-- The capture assignment the round-trip is expected to recover: each field
in template order, its group name, and the rendered string of its resolved
value. -/
def boundCaps (dflt : String → Value) (vals : List (String × Value)) :
    List TTok → Caps
  | [] => []
  | .lit _ :: ts => boundCaps dflt vals ts
  | .field n _ :: ts => (repDot n, fmtRender (getFieldVal dflt vals n)) :: boundCaps dflt vals ts

/-- Total number of `:` characters contributed by the literal tokens of a
pattern body. -/
def litColons : List PTok → Nat
  | [] => 0
  | .lit l :: ts => l.count ':' + litColons ts
  | .grp _ :: ts => litColons ts

/-- Template shape under which reverse matching is unambiguous: every field is
immediately followed either by the end of the template or by a literal
containing the key separator `:`. -/
def goodTmpl : List TTok → Bool
  | [] => true
  | .lit _ :: ts => goodTmpl ts
  | [.field _ _] => true
  | .field _ _ :: .lit l :: ts => (':' ∈ l) && goodTmpl (.lit l :: ts)
  | .field _ _ :: .field _ _ :: _ => false

/-- The corresponding shape condition on compiled pattern bodies. -/
def goodPat : List PTok → Bool
  | [] => true
  | .lit _ :: ts => goodPat ts
  | [.grp _] => true
  | .grp _ :: .lit l :: ts => (':' ∈ l) && goodPat (.lit l :: ts)
  | .grp _ :: .grp _ :: _ => false

/-- Characters with special meaning in Python regular expressions; template
literals containing none of these are embedded verbatim by the compiled
pattern. -/
def regexMeta : List Char :=
  ['.', '^', '$', '*', '+', '?', '(', ')', '[', ']', Char.ofNat 123, Char.ofNat 125, '\\', '|']

/-- Literal spans that the pattern compiler embeds verbatim. -/
def regexSafeLit (l : List Char) : Bool := l.all fun c => c ∉ regexMeta

/-- Field names that Python's `string.Formatter` resolves by a plain keyword
lookup and that form valid regex group names: nonempty, alphanumeric or
underscore, not starting with a digit. -/
def identName (s : String) : Bool :=
  s ≠ "" && s.data.all (fun c => c.isAlphanum || c = '_') &&
    !(s.data.headD '_').isDigit

/-- All field tokens of a template satisfy a predicate. -/
def allFields (p : String → String → Bool) (ts : List TTok) : Bool :=
  ts.all fun t => match t with | .field n spec => p n spec | .lit _ => true

/-- All literal tokens of a template satisfy a predicate. -/
def allLits (p : List Char → Bool) (ts : List TTok) : Bool :=
  ts.all fun t => match t with | .field _ _ => true | .lit l => p l

/-- The field names of a template, in order. -/
def fieldNames : List TTok → List String
  | [] => []
  | .lit _ :: ts => fieldNames ts
  | .field n _ :: ts => n :: fieldNames ts

/-! ## Backend and policy decorators -/

/-- The cache backend's observable state: counters, per-key expiries, and the
lock records (value, expire) set with `set_lock`. -/
structure Backend where
  counters : List (String × Nat)
  expiries : List (String × Nat)
  locks : List (String × (ℚ × Nat))
deriving DecidableEq, Repr

/-- The backend with no keys. -/
def Backend.empty : Backend := ⟨[], [], []⟩

/-- `backend.incr(key)`: atomic increment, creating the counter at 1. -/
def bIncr (b : Backend) (k : String) : Nat × Backend :=
  let n := (alookup k b.counters).getD 0 + 1
  (n, { b with counters := aset k n b.counters })

/-- `backend.expire(key, timeout)`: set or overwrite the key's expiry. -/
def bExpire (b : Backend) (k : String) (timeout : Nat) : Backend :=
  { b with expiries := aset k timeout b.expiries }

/-- `backend.is_locked(key)`. -/
def bIsLocked (b : Backend) (k : String) : Bool :=
  (alookup k b.locks).isSome

/-- `backend.set_lock(key, value, expire)`. -/
def bSetLock (b : Backend) (k : String) (v : ℚ) (expire : Nat) : Backend :=
  { b with locks := aset k (v, expire) b.locks }

/-- One backend interaction or wrapped-function invocation, in program order. -/
inductive BEvent where
  | incr (key : String)
  | expire (key : String) (timeout : Nat)
  | islocked (key : String)
  | setlock (key : String) (value : ℚ) (expire : Nat)
  | callF
deriving DecidableEq, Repr

/-- Exceptions visible to the embedded decorators: `RateLimitException`,
`PerfDegradationException`, or any exception of the wrapped code. -/
inductive PyExc (E : Type) where
  | rateLimit
  | perfDegradation
  | other (e : E)
deriving DecidableEq, Repr

/-- `_default_action` (rate.py lines 16-17): raise `RateLimitException`. -/
def _default_action (_a : A) : Except (PyExc E) R := .error .rateLimit

/-- Whether an embedded call outcome is an exception. -/
def exceptIsError : Except ε α → Bool
  | .error _ => true
  | .ok _ => false

/-- Python truthiness of the optional `ttl` argument (`if ttl and ...`,
rate.py line 52): absent or zero is falsy. -/
def ttlTruthy : Option Nat → Bool
  | Option.none => false
  | some t => t != 0

/-- Result of one rate-limited call: the outcome surfaced to the caller, the
final backend state, and the ordered backend/call events. -/
structure RateRun (V E : Type) where
  result : Except (PyExc E) V
  backend : Backend
  events : List BEvent
deriving Repr

/-- `wrapped_func` of `rate_limit` (rate.py lines 47-60): increment the
counter; when over the limit, first (on exactly the first over-limit call,
with a truthy `ttl`) overwrite the key's expiry to `ttl`, then invoke the
action with the original call arguments (raising aborts the call); then, on
the very first increment, set the key's expiry to `period`; finally invoke the
wrapped function and return its outcome.  `callRes` is the outcome the wrapped
function produces if invoked. -/
def wrapped_func (limit period : Nat) (ttl : Option Nat)
    (action : A → Except (PyExc E) R) (key : String)
    (args : A) (callRes : Except (PyExc E) V) (b : Backend) : RateRun V E :=
  let count := (bIncr b key).1
  let b1 := (bIncr b key).2
  if limit < count then
    let overTtl := ttlTruthy ttl ∧ count = limit + 1
    let b2 := if overTtl then bExpire b1 key (ttl.getD 0) else b1
    let ev2 := [BEvent.incr key] ++ (if overTtl then [BEvent.expire key (ttl.getD 0)] else [])
    match action args with
    | .error e => ⟨.error e, b2, ev2⟩
    | .ok _ =>
        let b3 := if count = 1 then bExpire b2 key period else b2
        let ev3 := ev2 ++ (if count = 1 then [BEvent.expire key period] else [])
        ⟨callRes, b3, ev3 ++ [BEvent.callF]⟩
  else
    let b3 := if count = 1 then bExpire b1 key period else b1
    let ev3 := [BEvent.incr key] ++ (if count = 1 then [BEvent.expire key period] else [])
    ⟨callRes, b3, ev3 ++ [BEvent.callF]⟩

/-- Arithmetic mean of a duration trace (`statistics.mean`). -/
def listMean (l : List ℚ) : ℚ := l.sum / l.length

/-- `_default_perf_condition` (perf.py lines 12-13): the current call took
more than double the historical average. -/
def _default_perf_condition (current : ℚ) (previous : List ℚ) : Bool :=
  listMean previous * 2 < current

/-- `deque(maxlen).append`: keep the last `maxlen` entries. -/
def dequeAppend (maxlen : Nat) (t : List ℚ) (d : ℚ) : List ℚ :=
  (t ++ [d]).drop (t.length + 1 - maxlen)

/-- Result of one perf-decorated call: outcome, new trace, final backend
state, and the ordered backend/call events. -/
structure PerfRun (V E : Type) where
  result : Except (PyExc E) V
  trace : List ℚ
  backend : Backend
  events : List BEvent
deriving Repr

/-- `_wrap` of `perf` (perf.py lines 50-62): fail with
`PerfDegradationException` while the `key + ":lock"` lock exists, without
invoking the wrapped function; otherwise invoke it (an exception propagates
with no trace update); on success with duration `takes`, either set the lock
with value `takes` and expiry `ttl` and clear the trace (trace at capacity and
condition holds) or append `takes` to the bounded trace. -/
def _wrap (ttl traceSize : Nat) (cond : ℚ → List ℚ → Bool) (key : String)
    (callRes : Except (PyExc E) V) (takes : ℚ) (trace : List ℚ) (b : Backend) :
    PerfRun V E :=
  if bIsLocked b (key ++ ":lock") then
    ⟨.error .perfDegradation, trace, b, [BEvent.islocked (key ++ ":lock")]⟩
  else
    match callRes with
    | .error e => ⟨.error e, trace, b, [BEvent.islocked (key ++ ":lock"), BEvent.callF]⟩
    | .ok v =>
        if trace.length = traceSize ∧ cond takes trace = true then
          ⟨.ok v, [], bSetLock b (key ++ ":lock") takes ttl,
            [BEvent.islocked (key ++ ":lock"), BEvent.callF,
              BEvent.setlock (key ++ ":lock") takes ttl]⟩
        else
          ⟨.ok v, dequeAppend traceSize trace takes, b,
            [BEvent.islocked (key ++ ":lock"), BEvent.callF]⟩

/-- `_hash_func` (formatter.py lines 73-77), with the three digest
implementations abstracted: an algorithm name outside the fixed set
`{sha1, md5, sha256}` fails (the spec's `UnsupportedAlgorithm` failure, a
`KeyError` on the `algs` table in the source); otherwise the hex digest of
the encoded value under the selected algorithm is returned. -/
inductive HashErr where
  | unsupportedAlgorithm
deriving DecidableEq, Repr

def _hash_func (dsha1 dmd5 dsha256 : String → String) (value : String)
    (alg : String) : Except HashErr String :=
  match alookup alg [("sha1", dsha1), ("md5", dmd5), ("sha256", dsha256)] with
  | some d => .ok (d value)
  | Option.none => .error .unsupportedAlgorithm

/-- `_hash_func` with the algorithm argument omitted: the default is `md5`. -/
def _hash_func_default (dsha1 dmd5 dsha256 : String → String) (value : String) :
    Except HashErr String :=
  _hash_func dsha1 dmd5 dsha256 value "md5"

/-! ## Lemmas about the reverse matcher -/

theorem mem_tokMatchAll_nil {s : List Char} {c : Caps} :
    c ∈ tokMatchAll [] s ↔ s = [] ∧ c = [] := by
  by_cases h : s = [] <;> simp [tokMatchAll, h]

theorem mem_tokMatchAll_lit {l : List Char} {ts : List PTok} {s : List Char} {c : Caps} :
    c ∈ tokMatchAll (.lit l :: ts) s ↔ l <+: s ∧ c ∈ tokMatchAll ts (s.drop l.length) := by
  by_cases h : l.isPrefixOf s
  · simp [tokMatchAll, h, List.isPrefixOf_iff_prefix.mp h]
  · have h' : ¬ l <+: s := fun hp => h (List.isPrefixOf_iff_prefix.mpr hp)
    simp [tokMatchAll, h, h']

theorem mem_tokMatchAll_grp {n : String} {ts : List PTok} {s : List Char} {c : Caps} :
    c ∈ tokMatchAll (.grp n :: ts) s ↔
      ∃ i, i ≤ s.length ∧ ':' ∉ s.take i ∧
        ∃ c', c' ∈ tokMatchAll ts (s.drop i) ∧ c = (n, s.take i) :: c' := by
  simp only [tokMatchAll, List.mem_flatMap, List.mem_range, Nat.lt_succ_iff]
  constructor
  · rintro ⟨i, hi, hmem⟩
    by_cases hc : ':' ∈ s.take i
    · simp [hc] at hmem
    · rw [if_neg hc, List.mem_map] at hmem
      obtain ⟨c', hc', rfl⟩ := hmem
      exact ⟨i, hi, hc, c', hc', rfl⟩
  · rintro ⟨i, hi, hc, c', hc', rfl⟩
    refine ⟨i, hi, ?_⟩
    rw [if_neg hc, List.mem_map]
    exact ⟨c', hc', rfl⟩

theorem take_colon_free_get? {s : List Char} {i k : ℕ}
    (h : ':' ∉ s.take i) (hk : k < i) : s[k]? ≠ some ':' := by
  intro heq
  apply h
  have : (s.take i)[k]? = some ':' := by
    rw [List.getElem?_take, if_pos hk]; exact heq
  exact List.getElem?_mem this

theorem prefix_drop_get? {l s : List Char} {i k : ℕ}
    (h : l <+: s.drop i) (hk : k < l.length) : s[i + k]? = l[k]? := by
  obtain ⟨r, hr⟩ := h
  rw [← List.getElem?_drop, ← hr, List.getElem?_append, if_pos hk]

/-- Two colon-free capture splits followed by the same colon-containing
literal must split at the same position (the literal's first colon pins the
split). -/
theorem grp_split_le {s l : List Char} {i₁ i₂ : ℕ} (hl : ':' ∈ l)
    (h₂t : ':' ∉ s.take i₂) (h₁p : l <+: s.drop i₁) (h₂p : l <+: s.drop i₂)
    (h12 : i₁ ≤ i₂) : i₂ ≤ i₁ := by
  have hP : ∃ k : ℕ, l[k]? = some ':' := List.mem_iff_getElem?.mp hl
  set j0 := Nat.find hP with hj0def
  have hj0 : l[j0]? = some ':' := Nat.find_spec hP
  have hmin : ∀ k < j0, l[k]? ≠ some ':' := fun k hk => Nat.find_min hP hk
  have hj0len : j0 < l.length := (List.getElem?_eq_some_iff.mp hj0).1
  have hcol1 : s[i₁ + j0]? = some ':' := by
    rw [prefix_drop_get? h₁p hj0len]; exact hj0
  have hle : i₂ ≤ i₁ + j0 := by
    by_contra hlt
    exact take_colon_free_get? h₂t (Nat.lt_of_not_le hlt) hcol1
  rcases Nat.eq_or_lt_of_le h12 with heq | hlt
  · omega
  · exfalso
    have hd : i₂ - i₁ ≤ j0 := by omega
    have hdpos : 0 < i₂ - i₁ := by omega
    have hklt : j0 - (i₂ - i₁) < j0 := by omega
    apply hmin (j0 - (i₂ - i₁)) hklt
    have hklen : j0 - (i₂ - i₁) < l.length := lt_trans hklt hj0len
    have e1 : l[j0 - (i₂ - i₁)]? = s[i₂ + (j0 - (i₂ - i₁))]? :=
      (prefix_drop_get? h₂p hklen).symm
    have e2 : i₂ + (j0 - (i₂ - i₁)) = i₁ + j0 := by omega
    rw [e1, e2, hcol1]

theorem grp_split_eq {s l : List Char} {i₁ i₂ : ℕ} (hl : ':' ∈ l)
    (h₁t : ':' ∉ s.take i₁) (h₂t : ':' ∉ s.take i₂)
    (h₁p : l <+: s.drop i₁) (h₂p : l <+: s.drop i₂) : i₁ = i₂ := by
  rcases le_total i₁ i₂ with h | h
  · exact le_antisymm h (grp_split_le hl h₂t h₁p h₂p h)
  · exact (le_antisymm h (grp_split_le hl h₁t h₂p h₁p h)).symm

/-- Under the separation shape condition, a pattern body has at most one full
match against any string. -/
theorem tokUnique : ∀ (ts : List PTok), goodPat ts = true →
    ∀ (s : List Char) (c₁ c₂ : Caps),
      c₁ ∈ tokMatchAll ts s → c₂ ∈ tokMatchAll ts s → c₁ = c₂
  | [], _, s, c₁, c₂, h₁, h₂ => by
      rw [mem_tokMatchAll_nil] at h₁ h₂
      rw [h₁.2, h₂.2]
  | .lit l :: ts, hg, s, c₁, c₂, h₁, h₂ => by
      rw [mem_tokMatchAll_lit] at h₁ h₂
      exact tokUnique ts (by simpa [goodPat] using hg) _ c₁ c₂ h₁.2 h₂.2
  | [.grp n], _, s, c₁, c₂, h₁, h₂ => by
      rw [mem_tokMatchAll_grp] at h₁ h₂
      obtain ⟨i₁, hi₁, _, c₁', hm₁, rfl⟩ := h₁
      obtain ⟨i₂, hi₂, _, c₂', hm₂, rfl⟩ := h₂
      rw [mem_tokMatchAll_nil] at hm₁ hm₂
      have e₁ : i₁ = s.length := le_antisymm hi₁ (List.drop_eq_nil_iff.mp hm₁.1)
      have e₂ : i₂ = s.length := le_antisymm hi₂ (List.drop_eq_nil_iff.mp hm₂.1)
      rw [e₁, e₂, hm₁.2, hm₂.2]
  | .grp n :: .lit l :: ts, hg, s, c₁, c₂, h₁, h₂ => by
      have hl : ':' ∈ l := by
        have := hg; simp only [goodPat, Bool.and_eq_true, decide_eq_true_eq] at this
        exact this.1
      have hg' : goodPat (.lit l :: ts) = true := by
        have := hg; simp only [goodPat, Bool.and_eq_true] at this
        exact this.2
      rw [mem_tokMatchAll_grp] at h₁ h₂
      obtain ⟨i₁, hi₁, hc₁, c₁', hm₁, rfl⟩ := h₁
      obtain ⟨i₂, hi₂, hc₂, c₂', hm₂, rfl⟩ := h₂
      have hp₁ : l <+: s.drop i₁ := (mem_tokMatchAll_lit.mp hm₁).1
      have hp₂ : l <+: s.drop i₂ := (mem_tokMatchAll_lit.mp hm₂).1
      have hii : i₁ = i₂ := grp_split_eq hl hc₁ hc₂ hp₁ hp₂
      subst hii
      rw [tokUnique (.lit l :: ts) hg' (s.drop i₁) c₁' c₂' hm₁ hm₂]
  | .grp _ :: .grp _ :: _, hg, _, _, _, _, _ => by simp [goodPat] at hg

/-- Any full match of a pattern body consumes exactly the colons of its
literals (captures are colon-free). -/
theorem count_colon_of_mem : ∀ {ts : List PTok} {s : List Char} {c : Caps},
    c ∈ tokMatchAll ts s → s.count ':' = litColons ts := by
  intro ts
  induction ts with
  | nil =>
      intro s c h
      rw [mem_tokMatchAll_nil] at h
      rw [h.1]; rfl
  | cons t ts ih =>
      intro s c h
      cases t with
      | lit l =>
          rw [mem_tokMatchAll_lit] at h
          have hsl : l ++ s.drop l.length = s := by
            conv_rhs => rw [← List.take_append_drop l.length s]
            rw [← List.prefix_iff_eq_take.mp h.1]
          calc s.count ':' = (l ++ s.drop l.length).count ':' := by rw [hsl]
            _ = l.count ':' + (s.drop l.length).count ':' := List.count_append ..
            _ = l.count ':' + litColons ts := by rw [ih h.2]
            _ = litColons (.lit l :: ts) := rfl
      | grp n =>
          rw [mem_tokMatchAll_grp] at h
          obtain ⟨i, _, hc, c', hm, _⟩ := h
          have : s.count ':' = (s.take i).count ':' + (s.drop i).count ':' := by
            conv_lhs => rw [← List.take_append_drop i s]
            exact List.count_append ..
          rw [this, List.count_eq_zero.mpr hc, Nat.zero_add, ih hm]
          rfl

/-- When the key has exactly the colons of the pattern's literals, the
optional `(.*[:])?` prefix can never fire: every full pattern match is a
match of the bare body. -/
theorem mem_tok_of_mem_pat {ts : List PTok} {s : List Char} {c : Caps}
    (h : c ∈ patMatchAll ts s) (hcnt : s.count ':' = litColons ts) :
    c ∈ tokMatchAll ts s := by
  rcases List.mem_append.mp h with h' | h'
  · exact h'
  · exfalso
    rw [List.mem_flatMap] at h'
    obtain ⟨i, hir, hmem⟩ := h'
    rw [List.mem_range] at hir
    by_cases hcol : s.getD i ' ' = ':'
    · rw [if_pos hcol] at hmem
      have h2 := count_colon_of_mem hmem
      have hsi : s[i]? = some ':' := by
        rw [List.getD_eq_getElem?_getD, List.getElem?_eq_getElem hir] at hcol
        rw [List.getElem?_eq_getElem hir]
        simpa using hcol
      have hmemtake : ':' ∈ s.take (i + 1) := by
        have : (s.take (i + 1))[i]? = some ':' := by
          rw [List.getElem?_take, if_pos (Nat.lt_succ_self i)]
          exact hsi
        exact List.getElem?_mem this
      have hsplit : s.count ':' = (s.take (i + 1)).count ':' + (s.drop (i + 1)).count ':' := by
        conv_lhs => rw [← List.take_append_drop (i + 1) s]
        exact List.count_append ..
      have hpos : 0 < (s.take (i + 1)).count ':' := List.count_pos_iff.mpr hmemtake
      omega
    · rw [if_neg hcol] at hmem
      exact absurd hmem (List.not_mem_nil c)

/-- Rendering a field whose parsed alias is not registered falls through to
the default rendering (`_ReplaceFormatter.format_field` ignores the spec). -/
theorem funcFormatField_not_registered {reg : List (String × Fn)} {v : Value} {spec : String}
    (h : alookup (parse_format_spec spec).1 reg = Option.none) :
    funcFormatField reg v spec = fmtRender v := by
  unfold funcFormatField
  rw [h]

/-- Extraction form of `allFields`. -/
theorem allFields_spec {p : String → String → Bool} {ts : List TTok}
    (h : allFields p ts = true) {n spec : String} (hmem : TTok.field n spec ∈ ts) :
    p n spec = true := by
  unfold allFields at h
  rw [List.all_eq_true] at h
  exact h _ hmem

/-- The separation shape survives pattern compilation. -/
theorem goodPat_compile : ∀ (ts : List TTok), goodTmpl ts = true →
    goodPat (compileTmpl ts) = true
  | [], _ => rfl
  | .lit l :: ts, h => by
      have h' : goodTmpl ts = true := h
      show goodPat (.lit l :: compileTmpl ts) = true
      cases ts with
      | nil => rfl
      | cons t ts' => exact goodPat_compile (t :: ts') h'
  | [.field n spec], _ => rfl
  | .field n spec :: .lit l :: ts, h => by
      simp only [goodTmpl, Bool.and_eq_true] at h
      show goodPat (.grp (repDot n) :: .lit l :: compileTmpl ts) = true
      have hrec : goodPat (compileTmpl (.lit l :: ts)) = true :=
        goodPat_compile (.lit l :: ts) h.2
      simp only [goodPat, Bool.and_eq_true]
      exact ⟨h.1, hrec⟩
  | .field _ _ :: .field _ _ :: _, h => by simp [goodTmpl] at h

/-- Existence half of the round trip: formatting a template whose fields all
render alias-free and colon-free produces a key on which the bare pattern
body matches with exactly the rendered field values as captures. -/
theorem boundCaps_mem (reg : List (String × Fn)) (dflt : String → Value)
    (vals : List (String × Value)) :
    ∀ ts : List TTok,
      (∀ n spec, TTok.field n spec ∈ ts →
        alookup (parse_format_spec spec).1 reg = Option.none) →
      (∀ n spec, TTok.field n spec ∈ ts → ':' ∉ fmtRender (getFieldVal dflt vals n)) →
      boundCaps dflt vals ts ∈ tokMatchAll (compileTmpl ts) (funcFormat reg dflt vals ts) := by
  intro ts
  induction ts with
  | nil =>
      intro _ _
      show boundCaps dflt vals [] ∈ tokMatchAll [] (funcFormat reg dflt vals [])
      rw [mem_tokMatchAll_nil]
      exact ⟨rfl, rfl⟩
  | cons t ts ih =>
      intro h1 h2
      cases t with
      | lit l =>
          show boundCaps dflt vals ts ∈
            tokMatchAll (.lit l :: compileTmpl ts) (l ++ funcFormat reg dflt vals ts)
          rw [mem_tokMatchAll_lit]
          refine ⟨List.prefix_append l _, ?_⟩
          rw [List.drop_left]
          exact ih (fun n spec hm => h1 n spec (List.mem_cons_of_mem _ hm))
            (fun n spec hm => h2 n spec (List.mem_cons_of_mem _ hm))
      | field n spec =>
          have hff : funcFormatField reg (getFieldVal dflt vals n) spec =
              fmtRender (getFieldVal dflt vals n) :=
            funcFormatField_not_registered (h1 n spec (List.mem_cons_self _ _))
          show (repDot n, fmtRender (getFieldVal dflt vals n)) :: boundCaps dflt vals ts ∈
            tokMatchAll (.grp (repDot n) :: compileTmpl ts)
              (funcFormatField reg (getFieldVal dflt vals n) spec ++ funcFormat reg dflt vals ts)
          rw [hff, mem_tokMatchAll_grp]
          refine ⟨(fmtRender (getFieldVal dflt vals n)).length, ?_, ?_, ?_⟩
          · rw [List.length_append]; exact Nat.le_add_right _ _
          · rw [List.take_left]
            exact h2 n spec (List.mem_cons_self _ _)
          · refine ⟨boundCaps dflt vals ts, ?_, ?_⟩
            · rw [List.drop_left]
              exact ih (fun n' spec' hm => h1 n' spec' (List.mem_cons_of_mem _ hm))
                (fun n' spec' hm => h2 n' spec' (List.mem_cons_of_mem _ hm))
            · rw [List.take_left]

/-- A successful association-list lookup returns a stored binding. -/
theorem alookup_mem {α : Type} {vals : List (String × α)} {n : String} {v : α}
    (h : alookup n vals = some v) : (n, v) ∈ vals := by
  induction vals with
  | nil => exact absurd h (by simp [alookup])
  | cons p r ih =>
      obtain ⟨k, w⟩ := p
      by_cases hk : k = n
      · subst hk
        rw [alookup, if_pos rfl, Option.some_inj] at h
        rw [h]
        exact List.mem_cons_self _ _
      · rw [alookup, if_neg hk] at h
        exact List.mem_cons_of_mem _ (ih h)

/-! ## Claims -/

/-- C1 (amended).  For every template whose field names are plain
identifiers and pairwise distinct, whose literals are free of regex
metacharacters, whose fields are each followed by the template's end or by a
literal containing the separator `:`, none of whose fields carries a
registered function alias, and every value map binding every field to a value
whose rendered string contains no `:`, registering the template and looking
up the key produced by formatting it succeeds and every full-match capture
assignment — in particular the one the regex engine returns — equals the
rendered (normalized) bound values, field by field. -/
theorem round_trip_recovers_bound_values
    (reg : List (String × Fn)) (dflt : String → Value)
    (vals : List (String × Value)) (fid : FuncId) (toks : List TTok)
    (hident : allFields (fun n _ => identName n) toks = true)
    (hnodup : (fieldNames toks).Nodup)
    (hsafe : allLits regexSafeLit toks = true)
    (hbound : allFields (fun n _ => (alookup n vals).isSome) toks = true)
    (hnoalias : allFields
      (fun _ spec => (alookup (parse_format_spec spec).1 reg).isNone) toks = true)
    (hnc : ∀ p ∈ vals, ':' ∉ fmtRender p.2)
    (hsep : goodTmpl toks = true) :
    ∃ ms, get_template_for_key (register_template fid toks [])
        (funcFormat reg dflt vals toks) = some (toks, ms) ∧
      ms ≠ [] ∧ ∀ m ∈ ms, m = boundCaps dflt vals toks := by
  have hnoalias' : ∀ n spec, TTok.field n spec ∈ toks →
      alookup (parse_format_spec spec).1 reg = Option.none := by
    intro n spec hm
    exact Option.isNone_iff_eq_none.mp (allFields_spec hnoalias hm)
  have hnc' : ∀ n spec, TTok.field n spec ∈ toks →
      ':' ∉ fmtRender (getFieldVal dflt vals n) := by
    intro n spec hm
    have hb := allFields_spec hbound hm
    obtain ⟨v, hv⟩ := Option.isSome_iff_exists.mp hb
    have : getFieldVal dflt vals n = v := by unfold getFieldVal; rw [hv]
    rw [this]
    exact hnc (n, v) (alookup_mem hv)
  have hmem := boundCaps_mem reg dflt vals toks hnoalias' hnc'
  have hcnt := count_colon_of_mem hmem
  have hpat : boundCaps dflt vals toks ∈
      patMatchAll (compileTmpl toks) (funcFormat reg dflt vals toks) :=
    List.mem_append_left _ hmem
  have hne : ¬ (patMatchAll (compileTmpl toks) (funcFormat reg dflt vals toks)).isEmpty = true := by
    rw [List.isEmpty_iff]
    exact List.ne_nil_of_mem hpat
  have hregeq : register_template fid toks [] = [(fid, toks)] := by
    simp [register_template]
  refine ⟨patMatchAll (compileTmpl toks) (funcFormat reg dflt vals toks), ?_, ?_, ?_⟩
  · rw [hregeq]
    unfold get_template_for_key
    rw [if_neg hne]
  · exact List.ne_nil_of_mem hpat
  · intro m hm
    have hmtok := mem_tok_of_mem_pat hm hcnt
    exact tokUnique (compileTmpl toks) (goodPat_compile toks hsep) _ m
      (boundCaps dflt vals toks) hmtok hmem

/-- Witness for C1: the template `p:{a}` with `a` bound to `"v"` round-trips. -/
theorem round_trip_recovers_bound_values_witness :
    ∃ ms, get_template_for_key
        (register_template ("m", "f") [TTok.lit "p:".data, TTok.field "a" ""] [])
        (funcFormat [] (fun _ => Value.str "") [("a", Value.str "v")]
          [TTok.lit "p:".data, TTok.field "a" ""]) =
      some ([TTok.lit "p:".data, TTok.field "a" ""], ms) ∧
      ms ≠ [] ∧ ∀ m ∈ ms,
        m = boundCaps (fun _ => Value.str "") [("a", Value.str "v")]
          [TTok.lit "p:".data, TTok.field "a" ""] :=
  round_trip_recovers_bound_values [] (fun _ => Value.str "")
    [("a", Value.str "v")] ("m", "f") [TTok.lit "p:".data, TTok.field "a" ""]
    (by decide) (by decide) (by decide) (by decide) (by decide) (by decide) (by decide)

/-- Counterexample to C1 as stated: with the single-field template `{a}` and
`a` bound to `"x:y"`, formatting yields the key `x:y`, whose unique full
match against the compiled pattern `(.*[:])?(?P<a>[^:]*)$` captures only
`"y"` — not the bound value's string `"x:y"`. -/
theorem round_trip_counterexample :
    get_template_for_key (register_template ("m", "f") [TTok.field "a" ""] [])
        (funcFormat [] (fun _ => Value.str "") [("a", Value.str "x:y")]
          [TTok.field "a" ""]) =
      some ([TTok.field "a" ""], [[("a", "y".data)]]) ∧
      [("a", "y".data)] ≠
        boundCaps (fun _ => Value.str "") [("a", Value.str "x:y")] [TTok.field "a" ""] := by
  constructor
  · rfl
  · decide

/-- C3 (amended).  `get_template_and_func_for` scans the registered entries:
it returns `none` exactly when no compiled pattern fully matches the key, and
any returned answer pairs the owning function's identity with the matching
template rendered through `template_to_pattern` — i.e. with every field
replaced by the `*` wildcard, not the raw template. -/
theorem lookup_by_key_scan (reg : Registry) (key : List Char) :
    (get_template_and_func_for reg key = Option.none ↔
      ∀ p ∈ reg, patMatchAll (compileTmpl p.2) key = []) ∧
    (∀ w f, get_template_and_func_for reg key = some (w, f) →
      ∃ t, (f, t) ∈ reg ∧ patMatchAll (compileTmpl t) key ≠ [] ∧
        w = template_to_pattern t) := by
  induction reg with
  | nil =>
      constructor
      · simp [get_template_and_func_for]
      · intro w f h
        exact absurd h (by simp [get_template_and_func_for])
  | cons p rest ih =>
      obtain ⟨f0, t0⟩ := p
      by_cases h0 : (patMatchAll (compileTmpl t0) key).isEmpty
      · have h0' : patMatchAll (compileTmpl t0) key = [] := List.isEmpty_iff.mp h0
        constructor
        · rw [get_template_and_func_for, if_pos h0, ih.1]
          constructor
          · intro hall q hq
            rcases List.mem_cons.mp hq with rfl | hq'
            · exact h0'
            · exact hall q hq'
          · intro hall q hq
            exact hall q (List.mem_cons_of_mem _ hq)
        · intro w f h
          rw [get_template_and_func_for, if_pos h0] at h
          obtain ⟨t, ht, hne, hw⟩ := ih.2 w f h
          exact ⟨t, List.mem_cons_of_mem _ ht, hne, hw⟩
      · have h0' : patMatchAll (compileTmpl t0) key ≠ [] := by
          intro h
          exact h0 (by rw [h]; rfl)
        constructor
        · rw [get_template_and_func_for, if_neg h0]
          constructor
          · intro h
            exact absurd h (by simp)
          · intro hall
            exact absurd (hall (f0, t0) (List.mem_cons_self _ _)) h0'
        · intro w f h
          rw [get_template_and_func_for, if_neg h0, Option.some_inj] at h
          cases h
          exact ⟨t0, List.mem_cons_self _ _, h0', rfl⟩

/-- Witness for C3: with `p:{a}` registered, the key `p:v` is recognized and
the result names a registered matching template (wildcarded) and its owner. -/
theorem lookup_by_key_scan_witness :
    ∃ t, ((("m", "f") : FuncId), t) ∈
        ([((("m", "f") : FuncId), [TTok.lit "p:".data, TTok.field "a" ""])] : Registry) ∧
      patMatchAll (compileTmpl t) "p:v".data ≠ [] ∧
      "p:*".data = template_to_pattern t :=
  (lookup_by_key_scan [(("m", "f"), [TTok.lit "p:".data, TTok.field "a" ""])] "p:v".data).2
    "p:*".data ("m", "f") rfl

/-- Counterexample to C3 as stated: the returned first component is the
wildcarded rendering `p:*`, not the registered template `p:{a}` itself. -/
theorem lookup_by_key_counterexample :
    get_template_and_func_for [(("m", "f"), [TTok.lit "p:".data, TTok.field "a" ""])]
        "p:v".data = some ("p:*".data, ("m", "f")) ∧
      "p:*".data ≠ tmplSource [TTok.lit "p:".data, TTok.field "a" ""] := by
  constructor
  · rfl
  · decide

/-- `_ReplaceFormatter.format` is a per-token concatenation. -/
theorem replaceFormat_append (dflt : String → Value) (vals : List (String × Value))
    (a b : List TTok) :
    replaceFormat dflt vals (a ++ b) =
      replaceFormat dflt vals a ++ replaceFormat dflt vals b := by
  induction a with
  | nil => rfl
  | cons t a ih =>
      cases t with
      | lit l => show l ++ replaceFormat dflt vals (a ++ b) = _
                 rw [ih]; simp [replaceFormat]
      | field n spec => show fmtRender (getFieldVal dflt vals n) ++ replaceFormat dflt vals (a ++ b) = _
                        rw [ih]; simp [replaceFormat]

/-- C8.  Formatting with `_ReplaceFormatter` and its default policy argument
(`lambda field: "*"`, formatter.py line 10) substitutes the literal `*` for
every field whose name is unbound, in position, with no error (the embedding
is a total function). -/
theorem missing_field_renders_default_marker
    (vals : List (String × Value)) (pre suf : List TTok) (n spec : String)
    (habs : alookup n vals = Option.none) :
    replaceFormat (fun _ => Value.str "*") vals (pre ++ TTok.field n spec :: suf) =
      replaceFormat (fun _ => Value.str "*") vals pre ++ "*".data ++
        replaceFormat (fun _ => Value.str "*") vals suf := by
  rw [replaceFormat_append]
  have hval : getFieldVal (fun _ => Value.str "*") vals n = Value.str "*" := by
    unfold getFieldVal
    rw [habs]
  show replaceFormat _ vals pre ++
      (fmtRender (getFieldVal (fun _ => Value.str "*") vals n) ++ replaceFormat _ vals suf) = _
  rw [hval, List.append_assoc]
  rfl

/-- Witness for C8: formatting `p{a}` with an empty value map yields `p*`. -/
theorem missing_field_renders_default_marker_witness :
    replaceFormat (fun _ => Value.str "*") []
        ([TTok.lit "p".data] ++ TTok.field "a" "" :: []) =
      replaceFormat (fun _ => Value.str "*") [] [TTok.lit "p".data] ++ "*".data ++
        replaceFormat (fun _ => Value.str "*") [] [] :=
  missing_field_renders_default_marker [] [TTok.lit "p".data] [] "a" "" rfl

/-- Splitting at the first occurrence of a character it does not share with
the prefix. -/
theorem splitFirst_not_mem {c : Char} : ∀ {pre post : List Char}, c ∉ pre →
    splitFirst c (pre ++ c :: post) = some (pre, post) := by
  intro pre
  induction pre with
  | nil =>
      intro post _
      show splitFirst c (c :: post) = _
      rw [splitFirst, if_pos rfl]
  | cons x pre ih =>
      intro post h
      have hx : ¬ x = c := fun e => h (e ▸ List.mem_cons_self _ _)
      show splitFirst c (x :: (pre ++ c :: post)) = _
      rw [splitFirst, if_neg hx, ih (fun hm => h (List.mem_cons_of_mem _ hm))]
      rfl

/-- `parse_format_spec` on an alias followed by an empty parenthesized
argument list: the parsed arguments are exactly one empty string. -/
theorem parse_format_spec_empty_parens {f : String} (hf : '(' ∉ f.data) :
    parse_format_spec (f ++ "()") = (f, [""]) := by
  have hdata : (f ++ "()").data = f.data ++ '(' :: [')'] := by
    rw [String.data_append]
  have hmem : '(' ∈ (f ++ "()").data := by
    rw [hdata]
    simp
  have hcond : ¬ (f ++ "()" = "" ∨ '(' ∉ (f ++ "()").data) := by
    rintro (h | h)
    · rw [h] at hmem
      exact absurd hmem (List.not_mem_nil _)
    · exact h hmem
  have hsplit : splitFirst '(' ((f ++ "()").data) = some (f.data, [')']) := by
    rw [hdata]
    exact splitFirst_not_mem hf
  unfold parse_format_spec
  rw [if_neg hcond, hsplit]
  rfl

/-- C9.  Formatting a field `{name:f()}` where `f` is a registered alias
invokes the registered function with exactly two arguments: the bound value
and one empty-string argument (Python's `"".split(",") == [""]`), not the
value alone. -/
theorem empty_parens_passes_one_empty_arg
    (reg : List (String × Fn)) (dflt : String → Value)
    (vals : List (String × Value)) (f n : String) (fn : Fn) (v : Value)
    (hf : '(' ∉ f.data) (hreg : alookup f reg = some fn)
    (hv : alookup n vals = some v) :
    funcFormat reg dflt vals [TTok.field n (f ++ "()")] = pyStr (fn v [""]) := by
  have hval : getFieldVal dflt vals n = v := by unfold getFieldVal; rw [hv]
  show funcFormatField reg (getFieldVal dflt vals n) (f ++ "()") ++ [] = _
  rw [List.append_nil, hval]
  unfold funcFormatField
  rw [parse_format_spec_empty_parens hf]
  show (match alookup f reg with
    | some fn => fmtRender (.str (String.mk (pyStr (fn v [""]))))
    | Option.none => fmtRender v) = _
  rw [hreg]
  rfl

/-- Witness for C9: the alias `g` mapped to an argument-counting function
receives the value and one extra (empty-string) argument. -/
theorem empty_parens_passes_one_empty_arg_witness :
    funcFormat [("g", fun _ args => Value.int args.length)] (fun _ => Value.str "")
        [("a", Value.str "v")] [TTok.field "a" ("g" ++ "()")] =
      pyStr ((fun (_ : Value) (args : List String) => Value.int args.length)
        (Value.str "v") [""]) :=
  empty_parens_passes_one_empty_arg [("g", fun _ args => Value.int args.length)]
    (fun _ => Value.str "") [("a", Value.str "v")] "g" "a"
    (fun _ args => Value.int args.length) (Value.str "v") (by decide) rfl rfl

/-- C10.  A format specifier whose parsed alias is not registered is silently
discarded: the bound value is rendered by the default stringification alone
(`None` to the empty string, booleans lowercased, strings and integers in
their natural form), the result does not depend on the specifier, and the
rendering is total (no error). -/
theorem unregistered_spec_discarded
    (reg : List (String × Fn)) (dflt : String → Value)
    (vals : List (String × Value)) (n spec : String) (v : Value)
    (hv : alookup n vals = some v)
    (hns : alookup (parse_format_spec spec).1 reg = Option.none) :
    funcFormat reg dflt vals [TTok.field n spec] = fmtRender v ∧
    (∀ spec', alookup (parse_format_spec spec').1 reg = Option.none →
      funcFormat reg dflt vals [TTok.field n spec] =
        funcFormat reg dflt vals [TTok.field n spec']) ∧
    fmtRender Value.none = "".data ∧
    (∀ b, fmtRender (Value.bool b) = (cond b "true" "false").data) ∧
    (∀ s, fmtRender (Value.str s) = s.data) ∧
    (∀ i, fmtRender (Value.int i) = (toString i).data) := by
  have hval : getFieldVal dflt vals n = v := by unfold getFieldVal; rw [hv]
  have hmain : ∀ sp, alookup (parse_format_spec sp).1 reg = Option.none →
      funcFormat reg dflt vals [TTok.field n sp] = fmtRender v := by
    intro sp hsp
    show funcFormatField reg (getFieldVal dflt vals n) sp ++ [] = _
    rw [List.append_nil, hval, funcFormatField_not_registered hsp]
  refine ⟨hmain spec hns, ?_, rfl, fun b => by cases b <;> rfl, fun s => rfl, fun i => rfl⟩
  intro spec' hns'
  rw [hmain spec hns, hmain spec' hns']

/-- Witness for C10: a `:d}`-style specifier on an empty registry is ignored
and a boolean renders lowercase. -/
theorem unregistered_spec_discarded_witness :
    funcFormat [] (fun _ => Value.str "") [("a", Value.bool true)]
        [TTok.field "a" "d"] = fmtRender (Value.bool true) ∧
    (∀ spec', alookup (parse_format_spec spec').1 ([] : List (String × Fn)) = Option.none →
      funcFormat [] (fun _ => Value.str "") [("a", Value.bool true)] [TTok.field "a" "d"] =
        funcFormat [] (fun _ => Value.str "") [("a", Value.bool true)] [TTok.field "a" spec']) ∧
    fmtRender Value.none = "".data ∧
    (∀ b, fmtRender (Value.bool b) = (cond b "true" "false").data) ∧
    (∀ s, fmtRender (Value.str s) = s.data) ∧
    (∀ i, fmtRender (Value.int i) = (toString i).data) :=
  unregistered_spec_discarded [] (fun _ => Value.str "") [("a", Value.bool true)]
    "a" "d" (Value.bool true) rfl rfl

/-- C7.  `_hash_func` fails (the spec's `UnsupportedAlgorithm`) exactly on
algorithm names outside the fixed set `{sha1, md5, sha256}`; on each name in
the set, and with the argument omitted (default `md5`), it returns the digest
of the value under the selected algorithm without failing. -/
theorem hash_algorithm_gate (dsha1 dmd5 dsha256 : String → String)
    (value alg : String) :
    (alg ∉ ["sha1", "md5", "sha256"] →
      _hash_func dsha1 dmd5 dsha256 value alg = .error .unsupportedAlgorithm) ∧
    _hash_func dsha1 dmd5 dsha256 value "sha1" = .ok (dsha1 value) ∧
    _hash_func dsha1 dmd5 dsha256 value "md5" = .ok (dmd5 value) ∧
    _hash_func dsha1 dmd5 dsha256 value "sha256" = .ok (dsha256 value) ∧
    _hash_func_default dsha1 dmd5 dsha256 value = .ok (dmd5 value) := by
  refine ⟨?_, rfl, rfl, rfl, rfl⟩
  intro hmem
  have h1 : ¬ ("sha1" = alg) := fun h => hmem (by rw [← h]; simp)
  have h2 : ¬ ("md5" = alg) := fun h => hmem (by rw [← h]; simp)
  have h3 : ¬ ("sha256" = alg) := fun h => hmem (by rw [← h]; simp)
  simp [_hash_func, alookup, h1, h2, h3]

/-- Witness for C7: `sha512` is rejected, `sha1` and the default succeed. -/
theorem hash_algorithm_gate_witness :
    _hash_func id id id "x" "sha512" = .error .unsupportedAlgorithm ∧
    _hash_func id id id "x" "sha1" = .ok (id "x") ∧
    _hash_func_default id id id "x" = .ok (id "x") :=
  ⟨(hash_algorithm_gate id id id "x" "sha512").1 (by decide),
    (hash_algorithm_gate id id id "x" "sha512").2.1,
    (hash_algorithm_gate id id id "x" "sha512").2.2.2.2⟩

/-- C4.  On an over-limit call the configured action is invoked with the
original call arguments (the wrapper's behaviour depends on the action only
through its value at those arguments); the default action raises
`RateLimitException`; if the action raises, that exception surfaces and the
wrapped function is not invoked; if the action returns, its return value is
discarded, the wrapped function is still invoked and its outcome returned. -/
theorem over_limit_invokes_action
    {A E R V : Type} (limit period : Nat) (ttl : Option Nat)
    (action : A → Except (PyExc E) R) (key : String) (args : A)
    (callRes : Except (PyExc E) V) (b : Backend)
    (hover : limit < (bIncr b key).1) :
    (∀ a : A, _default_action (E := E) (R := R) a = .error .rateLimit) ∧
    (∀ e, action args = .error e →
      (wrapped_func limit period ttl action key args callRes b).result = .error e ∧
      BEvent.callF ∉ (wrapped_func limit period ttl action key args callRes b).events) ∧
    (∀ r, action args = .ok r →
      (wrapped_func limit period ttl action key args callRes b).result = callRes ∧
      BEvent.callF ∈ (wrapped_func limit period ttl action key args callRes b).events) ∧
    (∀ action' : A → Except (PyExc E) R, action' args = action args →
      wrapped_func limit period ttl action' key args callRes b =
        wrapped_func limit period ttl action key args callRes b) := by
  refine ⟨fun _ => rfl, ?_, ?_, ?_⟩
  · intro e he
    simp only [wrapped_func, if_pos hover, he]
    constructor
    · trivial
    · split <;> simp
  · intro r hr
    simp only [wrapped_func, if_pos hover, hr]
    constructor
    · trivial
    · simp
  · intro action' he
    simp only [wrapped_func, he]

/-- Witness for C4: `limit = 1`, a second call on a counter already at 1 is
over the limit; the default action raises and the function is not called,
while a constant-`ok` action lets the call through. -/
theorem over_limit_invokes_action_witness :
    (∀ a : Unit, _default_action (E := Unit) (R := Unit) a = .error .rateLimit) ∧
    (∀ e, (fun _ : Unit => (Except.error (PyExc.rateLimit) : Except (PyExc Unit) Unit)) () = .error e →
      (wrapped_func 1 60 Option.none (fun _ : Unit => (Except.error PyExc.rateLimit : Except (PyExc Unit) Unit))
        "k" () (Except.ok () : Except (PyExc Unit) Unit) ⟨[("k", 1)], [], []⟩).result = .error e ∧
      BEvent.callF ∉ (wrapped_func 1 60 Option.none (fun _ : Unit => (Except.error PyExc.rateLimit : Except (PyExc Unit) Unit))
        "k" () (Except.ok () : Except (PyExc Unit) Unit) ⟨[("k", 1)], [], []⟩).events) ∧
    (∀ r, (fun _ : Unit => (Except.error (PyExc.rateLimit) : Except (PyExc Unit) Unit)) () = .ok r →
      (wrapped_func 1 60 Option.none (fun _ : Unit => (Except.error PyExc.rateLimit : Except (PyExc Unit) Unit))
        "k" () (Except.ok () : Except (PyExc Unit) Unit) ⟨[("k", 1)], [], []⟩).result = Except.ok () ∧
      BEvent.callF ∈ (wrapped_func 1 60 Option.none (fun _ : Unit => (Except.error PyExc.rateLimit : Except (PyExc Unit) Unit))
        "k" () (Except.ok () : Except (PyExc Unit) Unit) ⟨[("k", 1)], [], []⟩).events) ∧
    (∀ action' : Unit → Except (PyExc Unit) Unit, action' () = (fun _ : Unit => (Except.error PyExc.rateLimit : Except (PyExc Unit) Unit)) () →
      wrapped_func 1 60 Option.none action' "k" () (Except.ok () : Except (PyExc Unit) Unit) ⟨[("k", 1)], [], []⟩ =
        wrapped_func 1 60 Option.none (fun _ : Unit => (Except.error PyExc.rateLimit : Except (PyExc Unit) Unit))
          "k" () (Except.ok () : Except (PyExc Unit) Unit) ⟨[("k", 1)], [], []⟩) :=
  over_limit_invokes_action 1 60 Option.none
    (fun _ : Unit => (Except.error PyExc.rateLimit : Except (PyExc Unit) Unit))
    "k" () (Except.ok ()) ⟨[("k", 1)], [], []⟩ (by decide)

/-- C5 (amended).  The full schedule of backend calls of one rate-limited
call: the counter is always incremented first; the expiry is overwritten to
`ttl` iff `ttl` is truthy and the incremented counter equals `limit + 1` (the
first over-limit call); the expiry is set to `period` iff the counter equals
1 AND the call did not abort in the action beforehand — when `limit = 0` and
the action raises, the first increment happens with NO period expiry ever
set, contrary to the claim as stated. -/
theorem rate_expiry_schedule
    {A E R V : Type} (limit period : Nat) (ttl : Option Nat)
    (action : A → Except (PyExc E) R) (key : String) (args : A)
    (callRes : Except (PyExc E) V) (b : Backend) :
    (wrapped_func limit period ttl action key args callRes b).events =
      [BEvent.incr key] ++
      (if ttlTruthy ttl = true ∧ (bIncr b key).1 = limit + 1
        then [BEvent.expire key (ttl.getD 0)] else []) ++
      (if limit < (bIncr b key).1 ∧ exceptIsError (action args) = true then []
        else (if (bIncr b key).1 = 1 then [BEvent.expire key period] else []) ++
          [BEvent.callF]) := by
  by_cases hov : limit < (bIncr b key).1
  · cases ha : action args with
    | error e =>
        simp only [wrapped_func, if_pos hov, ha]
        simp [exceptIsError, hov]
    | ok r =>
        simp only [wrapped_func, if_pos hov, ha]
        simp [exceptIsError]
  · have h1 : ¬ (ttlTruthy ttl = true ∧ (bIncr b key).1 = limit + 1) := fun h => hov (by omega)
    have h2 : ¬ (limit < (bIncr b key).1 ∧ exceptIsError (action args) = true) :=
      fun h => hov h.1
    simp only [wrapped_func, if_neg hov, if_neg h1, if_neg h2]
    simp

/-- Counterexample to C5 as stated: `limit = 0`, `period = 60`, no `ttl`,
default action, fresh backend.  The very first increment (counter = 1) is
over the limit, the action raises, and no `expire(key, 60)` ever happens. -/
theorem rate_expiry_counterexample :
    (bIncr Backend.empty "k").1 = 1 ∧
    (wrapped_func 0 60 Option.none (_default_action (A := Unit) (E := Unit) (R := Unit))
        "k" () (Except.ok () : Except (PyExc Unit) Unit) Backend.empty).events =
      [BEvent.incr "k"] ∧
    BEvent.expire "k" 60 ∉
      (wrapped_func 0 60 Option.none (_default_action (A := Unit) (E := Unit) (R := Unit))
        "k" () (Except.ok () : Except (PyExc Unit) Unit) Backend.empty).events := by
  refine ⟨rfl, rfl, ?_⟩
  decide

/-- C6.  One perf-decorated call: while the `key + ":lock"` lock exists the
call fails with `PerfDegradationException` without invoking the wrapped
function and without touching trace or backend; on a successful call of
duration `takes`, if the trace is at capacity and the condition holds the
lock is set with value `takes` and expiry `ttl` and the trace is cleared,
otherwise `takes` is appended (evicting the oldest entry at capacity) and no
lock is set. -/
theorem perf_call_behaviour
    {E V : Type} (ttl traceSize : Nat) (cond : ℚ → List ℚ → Bool) (key : String)
    (callRes : Except (PyExc E) V) (takes : ℚ) (trace : List ℚ) (b : Backend)
    (hcap : trace.length ≤ traceSize) :
    (bIsLocked b (key ++ ":lock") = true →
      (_wrap ttl traceSize cond key callRes takes trace b).result = .error .perfDegradation ∧
      BEvent.callF ∉ (_wrap ttl traceSize cond key callRes takes trace b).events ∧
      (_wrap ttl traceSize cond key callRes takes trace b).trace = trace ∧
      (_wrap ttl traceSize cond key callRes takes trace b).backend = b) ∧
    (bIsLocked b (key ++ ":lock") = false → ∀ v, callRes = .ok v →
      ((trace.length = traceSize ∧ cond takes trace = true) →
        (_wrap ttl traceSize cond key callRes takes trace b).backend =
          bSetLock b (key ++ ":lock") takes ttl ∧
        (_wrap ttl traceSize cond key callRes takes trace b).trace = [] ∧
        BEvent.setlock (key ++ ":lock") takes ttl ∈
          (_wrap ttl traceSize cond key callRes takes trace b).events ∧
        (_wrap ttl traceSize cond key callRes takes trace b).result = .ok v) ∧
      (¬ (trace.length = traceSize ∧ cond takes trace = true) →
        (_wrap ttl traceSize cond key callRes takes trace b).backend = b ∧
        (∀ q t', BEvent.setlock (key ++ ":lock") q t' ∉
          (_wrap ttl traceSize cond key callRes takes trace b).events) ∧
        (_wrap ttl traceSize cond key callRes takes trace b).result = .ok v ∧
        (trace.length = traceSize → 0 < traceSize →
          (_wrap ttl traceSize cond key callRes takes trace b).trace =
            trace.tail ++ [takes]) ∧
        (trace.length < traceSize →
          (_wrap ttl traceSize cond key callRes takes trace b).trace =
            trace ++ [takes]))) := by
  constructor
  · intro hlock
    have heq : _wrap ttl traceSize cond key callRes takes trace b =
        ⟨.error .perfDegradation, trace, b, [BEvent.islocked (key ++ ":lock")]⟩ := by
      unfold _wrap
      rw [if_pos hlock]
    rw [heq]
    exact ⟨rfl, by simp, rfl, rfl⟩
  · intro hlock v hv
    subst hv
    have hfalse : ¬ (bIsLocked b (key ++ ":lock") = true) := by
      rw [hlock]
      simp
    constructor
    · intro htrig
      have heq : _wrap ttl traceSize cond key (Except.ok v : Except (PyExc E) V) takes trace b =
          ⟨.ok v, [], bSetLock b (key ++ ":lock") takes ttl,
            [BEvent.islocked (key ++ ":lock"), BEvent.callF,
              BEvent.setlock (key ++ ":lock") takes ttl]⟩ := by
        unfold _wrap
        rw [if_neg hfalse]
        show (if trace.length = traceSize ∧ cond takes trace = true then _ else _) = _
        rw [if_pos htrig]
      rw [heq]
      exact ⟨rfl, rfl, by simp, rfl⟩
    · intro htrig
      have heq : _wrap ttl traceSize cond key (Except.ok v : Except (PyExc E) V) takes trace b =
          ⟨.ok v, dequeAppend traceSize trace takes, b,
            [BEvent.islocked (key ++ ":lock"), BEvent.callF]⟩ := by
        unfold _wrap
        rw [if_neg hfalse]
        show (if trace.length = traceSize ∧ cond takes trace = true then _ else _) = _
        rw [if_neg htrig]
      rw [heq]
      refine ⟨rfl, ?_, rfl, ?_, ?_⟩
      · intro q t'
        simp
      · intro hlen hpos
        show dequeAppend traceSize trace takes = trace.tail ++ [takes]
        unfold dequeAppend
        rw [hlen]
        have h1 : traceSize + 1 - traceSize = 1 := by omega
        rw [h1, List.drop_append_of_le_length (by omega), List.drop_one]
      · intro hlt
        show dequeAppend traceSize trace takes = trace ++ [takes]
        unfold dequeAppend
        rw [Nat.sub_eq_zero_of_le hlt, List.drop_zero]

/-- Witness for C6: `traceSize = 3`, trace `[1, 1, 1]` at capacity, a call of
duration 5 (more than double the mean 1) sets the lock and clears the trace. -/
theorem perf_call_behaviour_witness :
    (_wrap (E := Unit) (V := Unit) 5 3 _default_perf_condition "k"
        (Except.ok ()) 5 [1, 1, 1] Backend.empty).backend =
      bSetLock Backend.empty ("k" ++ ":lock") 5 5 ∧
    (_wrap (E := Unit) (V := Unit) 5 3 _default_perf_condition "k"
        (Except.ok ()) 5 [1, 1, 1] Backend.empty).trace = [] := by
  have h := (perf_call_behaviour (E := Unit) (V := Unit) 5 3 _default_perf_condition "k"
    (Except.ok ()) 5 [1, 1, 1] Backend.empty (by decide)).2 (by decide) () rfl
  have h2 := h.1 ⟨by decide, by norm_num [_default_perf_condition, listMean]⟩
  exact ⟨h2.1, h2.2.1⟩

/-- C2 (amended).  When the wrapped function itself raises: the exception
propagates unchanged through the rate limiter (whenever execution reaches the
call, i.e. the call is not over-limit or the action returned) and through the
perf decorator (when the circuit is closed); the rate counter has still been
incremented in every case; but — contrary to the claim as stated — the
failing call contributes nothing to the perf trace, because the duration is
recorded only after a successful return (perf.py lines 55-61). -/
theorem wrapped_exception_propagates
    {A E R V : Type} (limit period : Nat) (ttl : Option Nat)
    (action : A → Except (PyExc E) R) (key : String) (args : A) (e : PyExc E)
    (b : Backend) (perfTtl perfSize : Nat) (cond : ℚ → List ℚ → Bool)
    (pkey : String) (takes : ℚ) (trace : List ℚ) (pb : Backend) :
    BEvent.incr key ∈ (wrapped_func limit period ttl action key args
      (Except.error e : Except (PyExc E) V) b).events ∧
    (((bIncr b key).1 ≤ limit ∨ ∃ r, action args = .ok r) →
      (wrapped_func limit period ttl action key args
        (Except.error e : Except (PyExc E) V) b).result = .error e) ∧
    (bIsLocked pb (pkey ++ ":lock") = false →
      (_wrap perfTtl perfSize cond pkey (Except.error e : Except (PyExc E) V)
        takes trace pb).result = .error e ∧
      (_wrap perfTtl perfSize cond pkey (Except.error e : Except (PyExc E) V)
        takes trace pb).trace = trace ∧
      (_wrap perfTtl perfSize cond pkey (Except.error e : Except (PyExc E) V)
        takes trace pb).backend = pb) := by
  refine ⟨?_, ?_, ?_⟩
  · by_cases hov : limit < (bIncr b key).1
    · cases ha : action args with
      | error e' =>
          simp only [wrapped_func, if_pos hov, ha]
          simp
      | ok r =>
          simp only [wrapped_func, if_pos hov, ha]
          simp
    · simp only [wrapped_func, if_neg hov]
      simp
  · intro hreach
    by_cases hov : limit < (bIncr b key).1
    · rcases hreach with hle | ⟨r, hr⟩
      · omega
      · simp only [wrapped_func, if_pos hov, hr]
    · simp only [wrapped_func, if_neg hov]
  · intro hlock
    have hfalse : ¬ (bIsLocked pb (pkey ++ ":lock") = true) := by
      rw [hlock]
      simp
    have heq : _wrap perfTtl perfSize cond pkey (Except.error e : Except (PyExc E) V)
        takes trace pb =
        ⟨.error e, trace, pb, [BEvent.islocked (pkey ++ ":lock"), BEvent.callF]⟩ := by
      unfold _wrap
      rw [if_neg hfalse]
    rw [heq]
    exact ⟨rfl, rfl, rfl⟩

/-- Witness for C2 (amended): `limit = 1`, first call, wrapped function
raises; the exception surfaces, the counter was incremented, and the closed
perf circuit propagates it with the trace untouched. -/
theorem wrapped_exception_propagates_witness :
    (BEvent.incr "k" ∈ (wrapped_func 1 60 Option.none
      (_default_action (A := Unit) (E := Unit) (R := Unit)) "k" ()
      (Except.error (PyExc.other ()) : Except (PyExc Unit) Unit) Backend.empty).events) ∧
    ((bIncr Backend.empty "k").1 ≤ 1 ∨
      ∃ r, _default_action (A := Unit) (E := Unit) (R := Unit) () = .ok r) ∧
    (wrapped_func 1 60 Option.none (_default_action (A := Unit) (E := Unit) (R := Unit))
      "k" () (Except.error (PyExc.other ()) : Except (PyExc Unit) Unit)
      Backend.empty).result = .error (PyExc.other ()) ∧
    (_wrap 5 3 _default_perf_condition "p"
      (Except.error (PyExc.other ()) : Except (PyExc Unit) Unit) 5 [1] Backend.empty).result =
        .error (PyExc.other ()) ∧
    (_wrap 5 3 _default_perf_condition "p"
      (Except.error (PyExc.other ()) : Except (PyExc Unit) Unit) 5 [1] Backend.empty).trace = [1] := by
  have h := wrapped_exception_propagates (V := Unit) 1 60 Option.none
    (_default_action (A := Unit) (E := Unit) (R := Unit)) "k" () (PyExc.other ())
    Backend.empty 5 3 _default_perf_condition "p" 5 [1] Backend.empty
  have hp := h.2.2 (by decide)
  exact ⟨h.1, Or.inl (by decide), h.2.1 (Or.inl (by decide)), hp.1, hp.2.1⟩

/-- Counterexample to C2 as stated: a perf-decorated call that raises does
NOT contribute its measured duration to the trace — with trace `[1]` and a
raising call of duration 5, the trace stays `[1]` and 5 never enters it. -/
theorem wrapped_exception_counterexample :
    (_wrap 5 3 _default_perf_condition "p"
      (Except.error (PyExc.other ()) : Except (PyExc Unit) Unit) 5 [1] Backend.empty).trace =
      [1] ∧
    (5 : ℚ) ∉ (_wrap 5 3 _default_perf_condition "p"
      (Except.error (PyExc.other ()) : Except (PyExc Unit) Unit) 5 [1] Backend.empty).trace := by
  refine ⟨rfl, ?_⟩
  decide

end Cashews
